import Mathlib

/-!
Verification development for the `type-correct` refactoring engine.

The definitions below are a shallow embedding, in Lean, of the C++ sources:

* `src/type_correct/CTU/FactManager.cpp` — fact serialization, merging and
  convergence checking,
* `src/type_correct/TypeCorrectMain.cpp` — the reduce phase driver,
* `src/type_correct/TypeCorrect.cpp` — boundary test `IsModifiable`,
  redundant-cast removal and the negative-literal guards,
* `src/type_correct/StructAnalyzer.cpp` — file boundary classification,
* `src/type_correct/TypeSolver.cpp` — constraint solver (`GetWider`,
  SCC contraction, symbolic fixpoint, finalization).

File contents, file paths and type spellings are modelled as `List Char`
so that every operation is computable by kernel reduction.  Declarations
are identified by natural numbers standing for the front-end pointers.
-/


/-- Character strings modelled as lists, so splitting and joining reduce
structurally in the kernel. -/
abbrev Str := List Char

/-! ## Association-list maps

`std::map` keyed by strings or declaration pointers is modelled as an
association list; lookups and in-place updates touch the first matching
entry, and fresh keys are appended (entry order stands for the map's
iteration order; none of the verified claims depends on that order). -/

/-- Lookup of the first entry with the given key (`map::find`). -/
def alookup {α β : Type} [DecidableEq α] (k : α) : List (α × β) → Option β
  | [] => none
  | (a, b) :: rest => if a = k then some b else alookup k rest

/-- Update the first entry with the given key in place. -/
def aupdate {α β : Type} [DecidableEq α] (k : α) (f : β → β) :
    List (α × β) → List (α × β)
  | [] => []
  | (a, b) :: rest =>
      if a = k then (a, f b) :: rest else (a, b) :: aupdate k f rest

/-- Assignment `m[k] = v` of `std::map`: overwrite the existing entry or
append a fresh one. -/
def aset {α β : Type} [DecidableEq α] (k : α) (v : β)
    (l : List (α × β)) : List (α × β) :=
  match alookup k l with
  | none => l ++ [(k, v)]
  | some _ => aupdate k (fun _ => v) l

/-- Presence of a key (`map::count`). -/
def acontains {α β : Type} [DecidableEq α] (k : α) (l : List (α × β)) : Bool :=
  (alookup k l).isSome

/-! ## Fact store (`CTU/FactManager.cpp`)

One record per symbol.  `FactManager.h` is absent from the sources; the
field set is taken from its uses in `FactManager.cpp`, and the default
`IsTypedef = false` for three-column records is modelled from the spec
("Records with three fields (legacy) default `is_typedef=false`"). -/

/-- Symbol fact exchanged between translation units. -/
structure SymbolFact where
  USR : Str
  TypeName : Str
  IsField : Bool
  IsTypedef : Bool
  deriving DecidableEq, Repr

/-- Integer-width rank table of `GetTypeRank` (FactManager.cpp:34-50). -/
def GetTypeRank (t : Str) : Nat :=
  if t = "unsigned char".toList ∨ t = "char".toList then 1
  else if t = "short".toList ∨ t = "unsigned short".toList then 2
  else if t = "int".toList ∨ t = "unsigned int".toList ∨ t = "unsigned".toList then 3
  else if t = "long".toList ∨ t = "unsigned long".toList then 4
  else if t = "size_t".toList ∨ t = "std::size_t".toList then 5
  else if t = "long long".toList ∨ t = "unsigned long long".toList then 6
  else if t = "ptrdiff_t".toList ∨ t = "std::ptrdiff_t".toList then 5
  else 0

/-- Conflict resolution applied to the stored fact `cur` when a second raw
fact `raw` with the same USR arrives (FactManager.cpp:116-126): a strictly
higher-ranked type name replaces the stored one, and `IsTypedef` is made
sticky.  The other fields are untouched. -/
def mergeResolve (cur raw : SymbolFact) : SymbolFact :=
  { cur with
    TypeName :=
      if GetTypeRank raw.TypeName > GetTypeRank cur.TypeName
      then raw.TypeName else cur.TypeName,
    IsTypedef := if raw.IsTypedef then true else cur.IsTypedef }

/-- One iteration of the merge loop body (FactManager.cpp:111-127). -/
def mergeStep (m : List (Str × SymbolFact)) (raw : SymbolFact) :
    List (Str × SymbolFact) :=
  match alookup raw.USR m with
  | none => m ++ [(raw.USR, raw)]
  | some _ => aupdate raw.USR (fun cur => mergeResolve cur raw) m

/-- `FactManager::MergeFacts` (FactManager.cpp:107-129). -/
def MergeFacts (rawFacts : List SymbolFact) : List (Str × SymbolFact) :=
  rawFacts.foldl mergeStep []

/-! ## Fact-file serialization

The file contents are modelled as the character stream written by
`WriteFacts` and parsed back by `ReadFacts`; `std::getline` over the
stream corresponds to `splitStream` below. -/

/-- Split a character stream at a delimiter with `std::getline` semantics:
the final segment is produced only when at least one character (possibly
the delimiter itself) is extracted for it, so a trailing delimiter does
not yield a trailing empty segment. -/
def splitStream (d : Char) : Str → List Str
  | [] => []
  | c :: cs =>
      if c = d then [] :: splitStream d cs
      else
        match splitStream d cs with
        | [] => [[c]]
        | l :: ls => (c :: l) :: ls

/-- Serialized line for one fact, without the trailing newline
(FactManager.cpp:62-65). -/
def factLine (f : SymbolFact) : Str :=
  f.USR ++ ('\t' :: (f.TypeName ++
    ('\t' :: (if f.IsField then '1' else '0') ::
      '\t' :: (if f.IsTypedef then '1' else '0') :: [])))

/-- `FactManager::WriteFacts` (FactManager.cpp:52-70), as the character
stream written to the file: one line per fact in map-iteration order. -/
def WriteFacts (facts : List SymbolFact) : Str :=
  facts.foldr (fun f acc => factLine f ++ '\n' :: acc) []

/-- Parse a single line of a fact file (FactManager.cpp:81-102): blank
lines and `#`-prefixed comments are skipped, a line splits at TABs, a
record needs at least three columns, and the fourth column is optional. -/
def parseFactLine (line : Str) : Option SymbolFact :=
  if line = [] then none
  else if line.head? = some '#' then none
  else
        let parts := splitStream '\t' line
        if parts.length ≥ 3 then
          some { USR := parts.getD 0 [],
                 TypeName := parts.getD 1 [],
                 IsField := parts.getD 2 [] = "1".toList,
                 IsTypedef :=
                   if parts.length ≥ 4 then parts.getD 3 [] = "1".toList
                   else false }
        else none

/-- `FactManager::ReadFacts` (FactManager.cpp:72-105) on a file content. -/
def ReadFacts (content : Str) : List SymbolFact :=
  (splitStream '\n' content).filterMap parseFactLine

/-- Re-keying of a fact vector into a map, `ExistingMap[F.USR] = F`
(FactManager.cpp:142-145). -/
def mapOfFacts (facts : List SymbolFact) : List (Str × SymbolFact) :=
  facts.foldl (fun m f => aset f.USR f m) []

/-- One-sided extensional inclusion of association lists. -/
def mapSubset (a b : List (Str × SymbolFact)) : Bool :=
  a.all (fun p => alookup p.1 b = some p.2)

/-- Extensional equality of the two maps, the meaning of `std::map`
`operator==` used at FactManager.cpp:153. -/
def mapEqB (a b : List (Str × SymbolFact)) : Bool :=
  mapSubset a b && mapSubset b a

/-- `FactManager::IsConvergenceReached` (FactManager.cpp:131-154); the
existing global file is `none` when it cannot be opened. -/
def IsConvergenceReached (existing : Option Str)
    (newFacts : List (Str × SymbolFact)) : Bool :=
  match existing with
  | none => false
  | some content =>
      let existingMap := mapOfFacts (ReadFacts content)
      if existingMap.length ≠ newFacts.length then false
      else mapEqB existingMap newFacts

/-! ## Reduce phase (`TypeCorrectMain.cpp`)

`RunReduce` is modelled over an abstract snapshot of the facts directory.
File-system outcomes that the code merely branches on — a directory
iteration error, an unreadable per-TU file, a failing write of the new
global file — are recorded as booleans in the snapshot. -/

/-- One file of the facts directory: its base name and its content
(`none` when the file cannot be opened, which `RunReduce` only warns
about). -/
structure FactsFile where
  name : Str
  content : Option Str
  deriving DecidableEq, Repr

/-- Extension of a path including the dot (`llvm::sys::path::extension`):
the suffix of the base name from its last dot, or empty when there is no
dot. -/
def pathExtension (p : Str) : Str :=
  match splitStream '.' p.reverse with
  | [] => []
  | seg :: rest => if rest.isEmpty then [] else '.' :: seg.reverse

/-- Snapshot of everything `RunReduce` observes. -/
structure ReduceWorld where
  dir : Str
  files : List FactsFile
  iterError : Bool
  existingGlobal : Option Str
  writeOk : Bool
  deriving DecidableEq, Repr

/-- The facts gathered from all `*.facts` files except `global.facts`
(TypeCorrectMain.cpp:204-213). -/
def gatherFacts (files : List FactsFile) : List SymbolFact :=
  files.foldl
    (fun acc f =>
      if pathExtension f.name = ".facts".toList ∧
          f.name ≠ "global.facts".toList then
        match f.content with
        | some c => acc ++ ReadFacts c
        | none => acc
      else acc)
    []

/-- `RunReduce` (TypeCorrectMain.cpp:194-235); `true` means the global
state changed and was rewritten. -/
def RunReduce (w : ReduceWorld) : Bool :=
  if w.dir = [] then false
  else if w.iterError then false
  else
    let merged := MergeFacts (gatherFacts w.files)
    if IsConvergenceReached w.existingGlobal merged then false
    else if w.writeOk then true
    else false

/-- Exit code of `--phase=reduce` (TypeCorrectMain.cpp:264-267). -/
def reduceExitCode (w : ReduceWorld) : Nat :=
  if RunReduce w then 1 else 0

/-- Fields that can break the text protocol: a TAB or newline inside the
USR or the type name, or a USR whose first character is the comment
marker. -/
def WellFormedFact (f : SymbolFact) : Prop :=
  '\t' ∉ f.USR ∧ '\n' ∉ f.USR ∧ '\t' ∉ f.TypeName ∧ '\n' ∉ f.TypeName ∧
    f.USR.head? ≠ some '#'

instance (f : SymbolFact) : Decidable (WellFormedFact f) := by
  unfold WellFormedFact; infer_instance

/-! ## Source locations and the boundary checks

`TypeCorrectMatcher::IsModifiable` (TypeCorrect.cpp:51-88) works on a
source location; `StructAnalyzer::CheckFileBoundary`
(StructAnalyzer.cpp:229-276) classifies whole files.  A location carries
the observations the code makes about it; `excludeHit` records the
outcome of `llvm::Regex(ExcludePattern).match(AbsPath)`, an external
primitive. -/

/-- Observable properties of a source location. -/
structure SrcLoc where
  valid : Bool
  inExpansion : Bool
  inMainFile : Bool
  absPath : Option Str
  excludeHit : Bool
  deriving DecidableEq, Repr

/-- `TypeCorrectMatcher::IsModifiable` (TypeCorrect.cpp:51-88): invalid
or macro-expansion locations are not modifiable; the main file always is;
otherwise a project root must be set, the location's file must be backed
by an entry, the exclude pattern must not match, and the normalized path
must start with the project root. -/
def IsModifiable (projectRoot excludePattern : Str) (loc : SrcLoc) : Bool :=
  if loc.valid = false then false
  else if loc.inExpansion then false
  else if loc.inMainFile then true
  else if projectRoot = [] then false
  else
    match loc.absPath with
    | none => false
    | some p =>
        if excludePattern ≠ [] ∧ loc.excludeHit then false
        else projectRoot.isPrefixOf p

/-- Boundary classification of a file (StructAnalyzer.h). -/
inductive BoundaryStatus where
  | Unknown
  | Modifiable
  | Fixed
  deriving DecidableEq, Repr

/-- Observable properties of one file of the translation unit.
`isMainFile` records whether the file is the TU's main file; the field is
not consulted by `CheckFileBoundary`, which never asks the source manager
for the main file id. -/
structure FileMeta where
  isSystemHeader : Bool
  entryPath : Option Str
  includeFrom : Option Nat
  isMainFile : Bool
  deriving DecidableEq, Repr

/-- Substring test, `StringRef::contains`. -/
def strContains (pat : Str) : Str → Bool
  | [] => pat.isEmpty
  | c :: rest => pat.isPrefixOf (c :: rest) || strContains pat rest

/-- Substring patterns of `IsExternalPath` (StructAnalyzer.cpp:125-129). -/
def externalPathPatterns : List Str :=
  ["/usr/".toList, "/opt/".toList, "node_modules".toList,
   "bower_components".toList, "third_party".toList, "external".toList,
   "build/_deps".toList, "CMake/Modules".toList]

/-- `StructAnalyzer::IsExternalPath` (StructAnalyzer.cpp:118-152).
`cmakeDep p` stands for `AnalyzeCMakeDependency(parent_path(p))`, whose
value depends on the `CMakeLists.txt` files found on disk. -/
def IsExternalPath (forceRewrite : Bool) (projectRoot : Str)
    (cmakeDep : Str → Bool) (path : Str) : Bool :=
  if forceRewrite then false
  else if externalPathPatterns.any (fun pat => strContains pat path) then true
  else if projectRoot ≠ [] ∧ ¬ projectRoot.isPrefixOf path then true
  else cmakeDep path

/-- `StructAnalyzer::CheckFileBoundary` (StructAnalyzer.cpp:229-276) as a
pure recursion over the include chain; `meta` maps a file id to its
observations, and the fuel bounds the include-chain depth (the per-TU
cache only memoizes this value).  System headers, files with no
underlying entry, external paths, and files included from a Fixed file
are Fixed; everything else is Modifiable. -/
def CheckFileBoundary (meta : Nat → FileMeta) (forceRewrite : Bool)
    (projectRoot : Str) (cmakeDep : Str → Bool) :
    Nat → Nat → BoundaryStatus
  | 0, _ => BoundaryStatus.Fixed
  | fuel + 1, fid =>
      let m := meta fid
      if m.isSystemHeader then BoundaryStatus.Fixed
      else
        match m.entryPath with
        | none => BoundaryStatus.Fixed
        | some p =>
            if IsExternalPath forceRewrite projectRoot cmakeDep p then
              BoundaryStatus.Fixed
            else
              match m.includeFrom with
              | none => BoundaryStatus.Modifiable
              | some incl =>
                  if incl ≠ fid then
                    match CheckFileBoundary meta forceRewrite projectRoot
                        cmakeDep fuel incl with
                    | BoundaryStatus.Fixed => BoundaryStatus.Fixed
                    | _ => BoundaryStatus.Modifiable
                  else BoundaryStatus.Modifiable

/-- Main file with no file entry, and main file on a `/usr/` path, used
by the C3 theorems. -/
def mainFileNoEntry : FileMeta :=
  { isSystemHeader := false, entryPath := none, includeFrom := none,
    isMainFile := true }

/-- Main file whose absolute path matches the `/usr/` external rule. -/
def mainFileUsrPath : FileMeta :=
  { isSystemHeader := false, entryPath := some "/usr/src/app/main.c".toList,
    includeFrom := none, isMainFile := true }

/-! ## Redundant explicit cast removal (`TypeCorrect.cpp:681-697`)

A recorded cast carries the observations `RemoveExplicitCast` and the
claim talk about: validity of the two ranges, the begin locations of the
cast and of its subexpression, the subexpression's source text, the
cast's written type and the subexpression's unqualified type (the two
types are recorded but never consulted by the code). -/

/-- A recorded explicit cast at end of translation unit. -/
structure CastRecord where
  castRangeValid : Bool
  subRangeValid : Bool
  castBegin : SrcLoc
  subBegin : SrcLoc
  subText : Str
  writtenType : Str
  subUnqualType : Str
  deriving DecidableEq, Repr

/-- `TypeCorrectMatcher::RemoveExplicitCast` (TypeCorrect.cpp:681-697):
the result is the text that replaces the whole cast expression, or `none`
when the cast is left in place. -/
def RemoveExplicitCast (projectRoot excludePattern : Str)
    (rec : CastRecord) : Option Str :=
  if rec.castRangeValid ∧ rec.subRangeValid ∧
      IsModifiable projectRoot excludePattern rec.castBegin = true then
    if rec.subText ≠ [] then some rec.subText else none
  else none

/-- Preconditions that claim C2 states for the replacement: type
equality, both ranges valid, both begin locations non-macro and in the
main file. -/
def ClaimCastPre (rec : CastRecord) : Prop :=
  rec.subUnqualType = rec.writtenType ∧
  rec.castRangeValid = true ∧ rec.subRangeValid = true ∧
  rec.castBegin.inExpansion = false ∧ rec.subBegin.inExpansion = false ∧
  rec.castBegin.inMainFile = true ∧ rec.subBegin.inMainFile = true

instance (rec : CastRecord) : Decidable (ClaimCastPre rec) := by
  unfold ClaimCastPre; infer_instance

/-- Recorded cast used by the C2 theorems: a cast in the main file whose
written type `size_t` differs from the subexpression's unqualified type
`int`. -/
def mismatchedCast : CastRecord :=
  { castRangeValid := true, subRangeValid := true,
    castBegin := { valid := true, inExpansion := false, inMainFile := true,
                   absPath := none, excludeHit := false },
    subBegin := { valid := true, inExpansion := false, inMainFile := true,
                  absPath := none, excludeHit := false },
    subText := "n".toList,
    writtenType := "size_t".toList, subUnqualType := "int".toList }

/-! ## Types of the solver and rewriter

A `QType` carries exactly the observations the embedded code makes on a
`clang::QualType`: the canonical identity used by `hasSameType` and
`getCanonicalType()` comparisons, the full sugared spelling standing for
the opaque pointer compared by `QualType::operator==`, and the results of
the predicate and size queries.  A nullable `clang::QualType` is
`Option QType`. -/

/-- Model of a non-null `clang::QualType`. -/
structure QType where
  canon : Str
  spell : Str
  incomplete : Bool
  scalar : Bool
  size : Nat
  unsignedInt : Bool
  signedInt : Bool
  deriving DecidableEq, Repr

/-- The type `int` on an LP64 target. -/
def intQ : QType :=
  ⟨"int".toList, "int".toList, false, true, 32, false, true⟩

/-- The type `unsigned int` on an LP64 target. -/
def uintQ : QType :=
  ⟨"unsigned int".toList, "unsigned int".toList, false, true, 32, true, false⟩

/-- The type `long` on an LP64 target. -/
def longQ : QType :=
  ⟨"long".toList, "long".toList, false, true, 64, false, true⟩

/-- The sugared `size_t` (canonically `unsigned long`) on an LP64 target. -/
def sizeQ : QType :=
  ⟨"unsigned long".toList, "size_t".toList, false, true, 64, true, false⟩

/-- The type `long long` on an LP64 target. -/
def longlongQ : QType :=
  ⟨"long long".toList, "long long".toList, false, true, 64, false, true⟩

/-- The sugared `ptrdiff_t` (canonically `long`) on an LP64 target. -/
def ptrdiffQ : QType :=
  ⟨"long".toList, "ptrdiff_t".toList, false, true, 64, false, true⟩

/-- An incomplete record type such as a forward-declared `struct`. -/
def incompleteQ : QType :=
  ⟨"struct opaque".toList, "struct opaque".toList, true, false, 0, false, false⟩

/-! ## Negative-literal guard on unsigned promotion

`TypeCorrectMatcher::run` inserts variables bound to a negative integer
literal into `VariablesWithNegativeValues` (TypeCorrect.cpp:550-555).
The end-of-unit loop skips the whole update of such a variable when the
candidate is unsigned (TypeCorrect.cpp:629-637); the multi-declaration
split keeps the declared type instead (TypeCorrect.cpp:734-741). -/

/-- Base-declaration rewrites emitted by the single-declaration path of
`onEndOfTranslationUnit` (TypeCorrect.cpp:630-651): for each entry of
`WidestTypeMap`, the negative-literal/unsigned gate first, then the
variable branch rewriting when a type-source-info exists and the
canonical types differ.  Each emitted pair is the variable and the type
its declaration is rewritten to. -/
def EndTypeRewrites (widest : List (Nat × QType)) (negVars : List Nat)
    (isVar : Nat → Bool) (hasTSI : Nat → Bool) (origType : Nat → QType) :
    List (Nat × QType) :=
  widest.filterMap (fun p =>
    if negVars.contains p.1 ∧ p.2.unsignedInt then none
    else if isVar p.1 then
      if hasTSI p.1 ∧ (origType p.1).canon ≠ p.2.canon then some p
      else none
    else none)

/-- Per-declaration target types produced by
`TypeCorrectMatcher::HandleMultiDecl` (TypeCorrect.cpp:722-763) for the
variables of one declaration statement: the candidate from
`WidestTypeMap` unless the variable saw a negative literal and the
candidate is unsigned, in which case the declared type is kept. -/
def HandleMultiDeclTargets (stmtDecls : List Nat)
    (widest : List (Nat × QType)) (negVars : List Nat)
    (origType : Nat → QType) : List (Nat × QType) :=
  stmtDecls.map (fun d =>
    match alookup d widest with
    | some cand =>
        if ¬ negVars.contains d ∨ ¬ cand.unsignedInt then (d, cand)
        else (d, origType d)
    | none => (d, origType d))

/-! ## Type solver (`TypeSolver.cpp`)

The solver state is a map from declarations (numbers) to node states.
All `operator[]` accesses of the C++ `std::map<const NamedDecl*,
NodeState>` — which default-construct missing entries — are mirrored by
`lookupD` (read with default) and `ensureNode`/`updateNodeD` (insert the
default before writing). -/

/-- `TypeSolver::GetWider` (TypeSolver.cpp:207-236).  `hasSameType` is
canonical-type equality, modelled by the `canon` field. -/
def GetWider (A B : Option QType) : Option QType :=
  match A, B with
  | none, _ => B
  | some _, none => A
  | some a, some b =>
      if a.canon = b.canon then some a
      else if a.incomplete ∨ b.incomplete then some b
      else if ¬ a.scalar ∨ ¬ b.scalar then some b
      else if b.size > a.size then some b
      else if a.size > b.size then some a
      else if b.unsignedInt ∧ a.signedInt then some b
      else some a

/-- Closed interval with optional bounds (TypeSolver.h:33-49). -/
structure ValueRange where
  min : Int
  max : Int
  hasMin : Bool
  hasMax : Bool
  deriving DecidableEq, Repr

/-- The default-constructed empty range. -/
def emptyRange : ValueRange := ⟨0, 0, false, false⟩

/-- `ValueRange::Union` (TypeSolver.cpp:28-49). -/
def rangeUnion (r o : ValueRange) : ValueRange :=
  if ¬ o.hasMin ∧ ¬ o.hasMax then r
  else
    let r1 :=
      if o.hasMin then
        if ¬ r.hasMin then { r with min := o.min, hasMin := true }
        else { r with min := Min.min r.min o.min }
      else r
    if o.hasMax then
      if ¬ r1.hasMax then { r1 with max := o.max, hasMax := true }
      else { r1 with max := Max.max r1.max o.max }
    else r1

/-- Solver node state (TypeSolver.h:83-105).  The declaration pointer is
the map key and the base expression is only consumed by the rewriter, so
neither is repeated here. -/
structure NodeState where
  originalType : Option QType
  constraintType : Option QType
  range : ValueRange
  isFixed : Bool
  hasGlobal : Bool
  isPtrOffset : Bool
  isTypedef : Bool
  deriving DecidableEq, Repr

/-- Default-constructed node state (`NodeState()`), with null types. -/
def defaultNodeState : NodeState :=
  ⟨none, none, emptyRange, false, false, false, false⟩

/-- Node state built by `NodeState(D, T, Locked, Typedef)`: both types
start at the declaration's current type. -/
def mkNodeState (t : Option QType) (locked istd : Bool) : NodeState :=
  ⟨t, t, emptyRange, locked, false, false, istd⟩

/-- Solver node map. -/
abbrev NodesMap := List (Nat × NodeState)

/-- Read through `operator[]`: a missing entry reads as the default. -/
def lookupD (d : Nat) (ns : NodesMap) : NodeState :=
  (alookup d ns).getD defaultNodeState

/-- Insertion effect of `operator[]` on a missing key. -/
def ensureNode (d : Nat) (ns : NodesMap) : NodesMap :=
  if acontains d ns then ns else ns ++ [(d, defaultNodeState)]

/-- Write through `operator[]`: insert the default if missing, then
mutate. -/
def updateNodeD (d : Nat) (f : NodeState → NodeState) (ns : NodesMap) :
    NodesMap :=
  aupdate d f (ensureNode d ns)

/-- Operations of a symbolic constraint (TypeSolver.h:55-61). -/
inductive OpKind where
  | NoOp
  | Add
  | Sub
  | Mul
  | Div
  deriving DecidableEq, Repr

/-- Symbolic constraint `Result = LHS Op RHS` (TypeSolver.h:67-77). -/
structure SymbolicConstraint where
  result : Nat
  op : OpKind
  lhs : Nat
  rhs : Nat
  deriving DecidableEq, Repr

/-- The observations `Solve` makes on the `ASTContext`: the pointer-diff
type and the builtin types returned by `GetOptimalTypeForRange`. -/
structure CtxModel where
  ptrdiffTy : QType
  sizeTy : QType
  ucharTy : QType
  ushortTy : QType
  uintTy : QType
  scharTy : QType
  shortTy : QType
  intTy : QType
  llongTy : QType
  deriving DecidableEq, Repr

/-- An LP64 context used by the concrete theorems. -/
def lp64Ctx : CtxModel :=
  { ptrdiffTy := ptrdiffQ, sizeTy := sizeQ,
    ucharTy := ⟨"unsigned char".toList, "unsigned char".toList,
      false, true, 8, true, false⟩,
    ushortTy := ⟨"unsigned short".toList, "unsigned short".toList,
      false, true, 16, true, false⟩,
    uintTy := uintQ,
    scharTy := ⟨"signed char".toList, "signed char".toList,
      false, true, 8, false, true⟩,
    shortTy := ⟨"short".toList, "short".toList, false, true, 16, false, true⟩,
    intTy := intQ, llongTy := longlongQ }

/-- Body of the symbolic-fixpoint loop for one constraint
(TypeSolver.cpp:314-331): the three `Nodes[...]` accesses first (they
insert defaults for unregistered declarations), then the forward widening
of the result's constraint; the returned flag reports whether the
constraint type changed. -/
def stepB (ctx : CtxModel) (ns : NodesMap) (sc : SymbolicConstraint) :
    NodesMap × Bool :=
  let ns3 := ensureNode sc.rhs (ensureNode sc.lhs (ensureNode sc.result ns))
  let tgt := lookupD sc.result ns3
  let ls := lookupD sc.lhs ns3
  let rs := lookupD sc.rhs ns3
  let opType0 := GetWider ls.constraintType rs.constraintType
  let opType :=
    if ls.isPtrOffset ∨ rs.isPtrOffset then
      GetWider opType0 (some ctx.ptrdiffTy)
    else opType0
  let newTarget := GetWider tgt.constraintType opType
  if newTarget ≠ tgt.constraintType then
    (aupdate sc.result (fun st => { st with constraintType := newTarget }) ns3,
      true)
  else (ns3, false)

/-- One pass over all symbolic constraints, with the `Changed` flag. -/
def passB (ctx : CtxModel) (scs : List SymbolicConstraint) (ns : NodesMap) :
    NodesMap × Bool :=
  scs.foldl
    (fun acc sc =>
      let r := stepB ctx acc.1 sc
      (r.1, acc.2 || r.2))
    (ns, false)

/-- The bounded fixpoint loop `while (Changed && Iterations < 25)`
(TypeSolver.cpp:308-332). -/
def phaseBGo (ctx : CtxModel) (scs : List SymbolicConstraint) :
    Nat → NodesMap → NodesMap
  | 0, ns => ns
  | fuel + 1, ns =>
      let r := passB ctx scs ns
      if r.2 then phaseBGo ctx scs fuel r.1 else r.1

/-- Phase B of `Solve`: at most 25 passes, stopping at quiescence. -/
def phaseB (ctx : CtxModel) (scs : List SymbolicConstraint)
    (ns : NodesMap) : NodesMap :=
  phaseBGo ctx scs 25 ns

/-- Iterated single passes, used to state the iteration bound. -/
def passIter (ctx : CtxModel) (scs : List SymbolicConstraint) :
    Nat → NodesMap → NodesMap
  | 0, ns => ns
  | k + 1, ns => passIter ctx scs k (passB ctx scs ns).1

/-- Operation type of a symbolic constraint over a node map:
`wider(lhs.type, rhs.type)`, floored at `ptrdiff_t` when either operand
is a pointer offset (TypeSolver.cpp:319-324). -/
def flooredOpType (ctx : CtxModel) (ns : NodesMap)
    (sc : SymbolicConstraint) : Option QType :=
  let ls := lookupD sc.lhs ns
  let rs := lookupD sc.rhs ns
  let t := GetWider ls.constraintType rs.constraintType
  if ls.isPtrOffset ∨ rs.isPtrOffset then GetWider t (some ctx.ptrdiffTy)
  else t

/-- Tarjan traversal state (TypeSolver.h:111-118 and the solver members
`TarjanIndexCounter`, `TarjanStack`, `TarjanState`). -/
structure TarjanSt where
  counter : Nat
  indexOf : List (Nat × Nat)
  lowOf : List (Nat × Nat)
  stack : List Nat
  onStack : List Nat
  sccs : List (List Nat)
  deriving Repr

/-- Lowlink read. -/
def tjLow (v : Nat) (st : TarjanSt) : Nat := (alookup v st.lowOf).getD 0

/-- Lowlink write. -/
def tjSetLow (v : Nat) (x : Nat) (st : TarjanSt) : TarjanSt :=
  { st with lowOf := aset v x st.lowOf }

/-- Pop the Tarjan stack down to `v` inclusive, returning the popped
nodes in pop order and the remaining stack. -/
def popUntil (v : Nat) : List Nat → List Nat × List Nat
  | [] => ([], [])
  | w :: rest =>
      if w = v then ([w], rest)
      else
        let pr := popUntil v rest
        (w :: pr.1, pr.2)

/-- `TypeSolver::StrongConnect` (TypeSolver.cpp:362-395), with the SCCs
collected instead of processed inline; the fuel bounds the recursion
depth (each nested call enters a not-yet-indexed node, so the number of
nodes suffices).  `ProcessSCC` only touches the node map, which the
traversal never reads, so processing the collected SCCs afterwards in
completion order is equivalent. -/
def strongConnect (adj : Nat → List Nat) :
    Nat → Nat → TarjanSt → TarjanSt
  | 0, _, st => st
  | fuel + 1, v, st0 =>
      let st1 : TarjanSt :=
        { st0 with
          indexOf := aset v st0.counter st0.indexOf,
          lowOf := aset v st0.counter st0.lowOf,
          counter := st0.counter + 1,
          stack := v :: st0.stack,
          onStack := v :: st0.onStack }
      let st2 :=
        (adj v).foldl
          (fun (st : TarjanSt) w =>
            match alookup w st.indexOf with
            | none =>
                let st := strongConnect adj fuel w st
                tjSetLow v (Min.min (tjLow v st) (tjLow w st)) st
            | some wIdx =>
                if st.onStack.contains w then
                  tjSetLow v (Min.min (tjLow v st) wIdx) st
                else st)
          st1
      if tjLow v st2 = (alookup v st2.indexOf).getD 0 then
        let pr := popUntil v st2.stack
        { st2 with
          stack := pr.2,
          onStack := st2.onStack.filter (fun x => ¬ pr.1.contains x),
          sccs := st2.sccs ++ [pr.1] }
      else st2

/-- The SCC list produced by the Tarjan loop of `Solve`
(TypeSolver.cpp:295-306), in completion order. -/
def tarjanSCCs (keys : List Nat) (adj : Nat → List Nat) :
    List (List Nat) :=
  (keys.foldl
    (fun (st : TarjanSt) v =>
      match alookup v st.indexOf with
      | none => strongConnect adj (keys.length + 1) v st
      | some _ => st)
    (⟨0, [], [], [], [], []⟩ : TarjanSt)).sccs

/-- `TypeSolver::ProcessSCC` (TypeSolver.cpp:397-430): unify the widest
constraint type and the range union across the members, floor at
`ptrdiff_t` when any member is a pointer offset, and write the unified
constraint type, range, and (conditionally) the pointer-offset flag back
to every member.  The `IsFixed` stickiness is computed but not written
back, exactly as in the source. -/
def processSCC (ctx : CtxModel) (ns : NodesMap) (scc : List Nat) :
    NodesMap :=
  let uty0 : Option QType :=
    match scc with
    | [] => none
    | m :: _ => (lookupD m ns).constraintType
  let folded :=
    scc.foldl
      (fun acc m =>
        let st := lookupD m ns
        (GetWider acc.1 st.constraintType,
          rangeUnion acc.2.1 st.range,
          acc.2.2.1 || st.isFixed,
          acc.2.2.2 || st.isPtrOffset))
      (uty0, emptyRange, false, false)
  let uty :=
    if folded.2.2.2 then GetWider folded.1 (some ctx.ptrdiffTy)
    else folded.1
  scc.foldl
    (fun acc m =>
      updateNodeD m
        (fun st =>
          { st with
            constraintType := uty,
            range := folded.2.1,
            isPtrOffset := if folded.2.2.2 then true else st.isPtrOffset })
        acc)
    ns

/-- Phase A of `Solve`: Tarjan contraction over the node keys followed by
per-SCC unification. -/
def phaseA (ctx : CtxModel) (ns : NodesMap) (adj : Nat → List Nat) :
    NodesMap :=
  (tarjanSCCs (ns.map Prod.fst) adj).foldl (processSCC ctx) ns

/-- `TypeSolver::GetOptimalTypeForRange` (TypeSolver.cpp:238-289).  The
signed branch reads `Max` even when `HasMax` is unset, as the source
does. -/
def GetOptimalTypeForRange (ctx : CtxModel) (r : ValueRange)
    (orig : Option QType) : Option QType :=
  if ¬ r.hasMin ∧ ¬ r.hasMax then orig
  else if ¬ (r.hasMin ∧ r.min < 0) then
    if r.hasMax then
      if r.max ≤ 255 then some ctx.ucharTy
      else if r.max ≤ 65535 then some ctx.ushortTy
      else if r.max ≤ 4294967295 then some ctx.uintTy
      else some ctx.sizeTy
    else orig
  else
    let absMax := Max.max r.min.natAbs r.max.natAbs
    if absMax ≤ 127 then some ctx.scharTy
    else if absMax ≤ 32767 then some ctx.shortTy
    else if absMax ≤ 2147483647 then some ctx.intTy
    else some ctx.llongTy

/-- Finalized type of one node in Phase C (TypeSolver.cpp:342-352):
pointer offsets floor at `ptrdiff_t`, a range with an upper bound picks
the optimal type, otherwise the accumulated constraint; the result is
widened once more against the accumulated constraint. -/
def finalizeType (ctx : CtxModel) (st : NodeState) : Option QType :=
  let opt :=
    if st.isPtrOffset then GetWider st.constraintType (some ctx.ptrdiffTy)
    else if st.range.hasMax then
      GetOptimalTypeForRange ctx st.range st.originalType
    else st.constraintType
  GetWider opt st.constraintType

/-- Loop body of Phase C for one node (TypeSolver.cpp:335-358): skip
fixed nodes, and store the node with its finalized constraint type in
the update map iff that type differs from the original type. -/
def phaseCStep (ctx : CtxModel) (upd : NodesMap) (p : Nat × NodeState) :
    NodesMap :=
  if p.2.isFixed then upd
  else
    let opt := finalizeType ctx p.2
    if opt ≠ p.2.originalType then
      aset p.1 { p.2 with constraintType := opt } upd
    else upd

/-- Phase C of `Solve` (TypeSolver.cpp:334-359). -/
def phaseC (ctx : CtxModel) (ns : NodesMap) : NodesMap :=
  ns.foldl (phaseCStep ctx) []

/-- The node states after phases A and B, entering finalization. -/
def solveFinalStates (ctx : CtxModel) (ns : NodesMap)
    (adj : Nat → List Nat) (scs : List SymbolicConstraint) : NodesMap :=
  phaseB ctx scs (phaseA ctx ns adj)

/-- `TypeSolver::Solve` (TypeSolver.cpp:295-360), returning the update
map. -/
def Solve (ctx : CtxModel) (ns : NodesMap) (adj : Nat → List Nat)
    (scs : List SymbolicConstraint) : NodesMap :=
  phaseC ctx (solveFinalStates ctx ns adj scs)

/-- Nodes of the C1 scenario: a result already at `long long` and two
`int` operands. -/
def c1Nodes : NodesMap :=
  [(0, mkNodeState (some longlongQ) false false),
   (1, mkNodeState (some intQ) false false),
   (2, mkNodeState (some intQ) false false)]

/-- The symbolic constraint `n0 = n1 + n2` of the C1 scenario. -/
def c1Cons : List SymbolicConstraint :=
  [⟨0, OpKind.Add, 1, 2⟩]

/-! ## Phase C and the emission of updates -/

/-- The update entry Phase C produces for one node, if any: `none` for a
fixed node and for a node whose finalized type equals its original type,
otherwise the node with its finalized constraint type. -/
def phaseCEmit (ctx : CtxModel) (p : Nat × NodeState) :
    Option (Nat × NodeState) :=
  if p.2.isFixed then none
  else if finalizeType ctx p.2 ≠ p.2.originalType then
    some (p.1, { p.2 with constraintType := finalizeType ctx p.2 })
  else none

/-- Distinctness of the keys of a node map. -/
def NodupKeys (m : NodesMap) : Prop := (m.map Prod.fst).Nodup

/-! ## Per-node frame: `IsFixed` and `OriginalType` survive phases A and B -/

/-- Relation between two node maps: every entry survives with its
`isFixed` flag and original type intact. -/
def KeepsFixedOrig (m m2 : NodesMap) : Prop :=
  ∀ d st, alookup d m = some st →
    ∃ st2, alookup d m2 = some st2 ∧ st2.isFixed = st.isFixed ∧
      st2.originalType = st.originalType

/-! ## Theorems -/

/-! ## Association-list lemmas -/

theorem alookup_append {α β : Type} [DecidableEq α] (k : α)
    (l m : List (α × β)) :
    alookup k (l ++ m) =
      match alookup k l with
      | some v => some v
      | none => alookup k m := by
  induction l with
  | nil => simp [alookup]
  | cons p rest ih =>
      obtain ⟨a, b⟩ := p
      by_cases h : a = k <;> simp [alookup, h, ih]

theorem alookup_aupdate_self {α β : Type} [DecidableEq α] (k : α)
    (f : β → β) (l : List (α × β)) :
    alookup k (aupdate k f l) = (alookup k l).map f := by
  induction l with
  | nil => simp [alookup, aupdate]
  | cons p rest ih =>
      obtain ⟨a, b⟩ := p
      by_cases h : a = k <;> simp [alookup, aupdate, h, ih]

theorem alookup_aupdate_of_ne {α β : Type} [DecidableEq α] {k j : α}
    (h : j ≠ k) (f : β → β) (l : List (α × β)) :
    alookup j (aupdate k f l) = alookup j l := by
  induction l with
  | nil => simp [aupdate]
  | cons p rest ih =>
      obtain ⟨a, b⟩ := p
      by_cases ha : a = k
      · subst ha
        simp [alookup, aupdate, Ne.symm h]
      · by_cases hj : a = j <;> simp [alookup, aupdate, ha, hj, ih, h]

/-! ## Merge characterization -/

/-- The merged entry for a USR is the left fold of the pairwise conflict
resolution over the raw facts carrying that USR, seeded with the first
such fact. -/
theorem mergeFacts_fold_lookup (raw : List SymbolFact) :
    ∀ (m : List (Str × SymbolFact)) (usr : Str),
    alookup usr (raw.foldl mergeStep m) =
      match alookup usr m with
      | some cur =>
          some ((raw.filter (fun f => decide (f.USR = usr))).foldl
            mergeResolve cur)
      | none =>
          match raw.filter (fun f => decide (f.USR = usr)) with
          | [] => none
          | f :: rest => some (rest.foldl mergeResolve f) := by
  induction raw with
  | nil =>
      intro m usr
      cases h : alookup usr m <;> simp [h]
  | cons r rs ih =>
      intro m usr
      rw [List.foldl_cons, ih]
      by_cases husr : r.USR = usr
      · subst husr
        cases hcur : alookup r.USR m with
        | none =>
            have hstep : mergeStep m r = m ++ [(r.USR, r)] := by
              simp [mergeStep, hcur]
            have hlook : alookup r.USR (mergeStep m r) = some r := by
              rw [hstep, alookup_append, hcur]
              simp [alookup]
            rw [hlook]
            simp [List.filter_cons]
        | some cur =>
            have hstep : mergeStep m r =
                aupdate r.USR (fun c => mergeResolve c r) m := by
              simp [mergeStep, hcur]
            have hlook : alookup r.USR (mergeStep m r) =
                some (mergeResolve cur r) := by
              rw [hstep, alookup_aupdate_self, hcur]
              rfl
            rw [hlook]
            simp [List.filter_cons]
      · have hfilter :
            (r :: rs).filter (fun f => decide (f.USR = usr)) =
              rs.filter (fun f => decide (f.USR = usr)) := by
          simp [List.filter_cons, husr]
        have hlook : alookup usr (mergeStep m r) = alookup usr m := by
          cases hcur : alookup r.USR m with
          | none =>
              have hstep : mergeStep m r = m ++ [(r.USR, r)] := by
                simp [mergeStep, hcur]
              rw [hstep, alookup_append]
              cases hm : alookup usr m with
              | none => simp [alookup, husr]
              | some v => simp
          | some cur =>
              have hstep : mergeStep m r =
                  aupdate r.USR (fun c => mergeResolve c r) m := by
                simp [mergeStep, hcur]
              rw [hstep]
              exact alookup_aupdate_of_ne (fun h => husr h.symm) _ m
        rw [hlook, hfilter]

/-- The pairwise resolution never touches the USR or the `IsField` flag,
so neither does its fold. -/
theorem foldl_mergeResolve_frame (rest : List SymbolFact) :
    ∀ f : SymbolFact,
      (rest.foldl mergeResolve f).USR = f.USR ∧
        (rest.foldl mergeResolve f).IsField = f.IsField := by
  induction rest with
  | nil => intro f; exact ⟨rfl, rfl⟩
  | cons r rs ih =>
      intro f
      rw [List.foldl_cons]
      exact (ih (mergeResolve f r))

/-- The folded `IsTypedef` flag is the disjunction over all inputs. -/
theorem foldl_mergeResolve_isTypedef (rest : List SymbolFact) :
    ∀ f : SymbolFact,
      (rest.foldl mergeResolve f).IsTypedef =
        (f.IsTypedef || rest.any (fun g => g.IsTypedef)) := by
  induction rest with
  | nil => intro f; simp
  | cons r rs ih =>
      intro f
      rw [List.foldl_cons, ih]
      cases hr : r.IsTypedef <;>
        cases hf : f.IsTypedef <;>
          simp [mergeResolve, hr, hf]

/-- Claim C4: merging keys facts by USR; on a USR conflict the strictly
higher-ranked type name wins and equal ranks keep the first-written name,
the merged `is_typedef` flag is the disjunction over all facts with that
USR, and the rank table assigns the values the claim lists. -/
theorem mergeFacts_conflict_resolution :
    (∀ (rawFacts : List SymbolFact) (usr : Str),
      alookup usr (MergeFacts rawFacts) =
        match rawFacts.filter (fun f => decide (f.USR = usr)) with
        | [] => none
        | f :: rest => some (rest.foldl mergeResolve f)) ∧
    (∀ cur raw : SymbolFact,
      (GetTypeRank raw.TypeName > GetTypeRank cur.TypeName →
        (mergeResolve cur raw).TypeName = raw.TypeName) ∧
      (GetTypeRank raw.TypeName ≤ GetTypeRank cur.TypeName →
        (mergeResolve cur raw).TypeName = cur.TypeName) ∧
      (mergeResolve cur raw).IsTypedef = (cur.IsTypedef || raw.IsTypedef)) ∧
    (∀ (rest : List SymbolFact) (f : SymbolFact),
      (rest.foldl mergeResolve f).IsTypedef =
        (f.IsTypedef || rest.any (fun g => g.IsTypedef))) ∧
    (GetTypeRank "char".toList = 1 ∧ GetTypeRank "unsigned char".toList = 1 ∧
     GetTypeRank "short".toList = 2 ∧ GetTypeRank "unsigned short".toList = 2 ∧
     GetTypeRank "int".toList = 3 ∧ GetTypeRank "unsigned int".toList = 3 ∧
     GetTypeRank "unsigned".toList = 3 ∧ GetTypeRank "long".toList = 4 ∧
     GetTypeRank "unsigned long".toList = 4 ∧
     GetTypeRank "size_t".toList = 5 ∧ GetTypeRank "ptrdiff_t".toList = 5 ∧
     GetTypeRank "long long".toList = 6 ∧
     GetTypeRank "unsigned long long".toList = 6 ∧
     GetTypeRank "struct foo".toList = 0) := by
  refine ⟨?_, ?_, foldl_mergeResolve_isTypedef, ?_⟩
  · intro rawFacts usr
    have h := mergeFacts_fold_lookup rawFacts [] usr
    simpa [MergeFacts, alookup] using h
  · intro cur raw
    refine ⟨?_, ?_, ?_⟩
    · intro h; simp [mergeResolve, h]
    · intro h; simp [mergeResolve, Nat.not_lt.mpr h]
    · cases hr : raw.IsTypedef <;> simp [mergeResolve, hr]
  · refine ⟨?_, ?_, ?_, ?_, ?_, ?_, ?_, ?_, ?_, ?_, ?_, ?_, ?_, ?_⟩ <;> decide

/-- Witness for C4: the hypotheses of the pairwise clauses discharged at
concrete facts (`long` beats `int`; a tie keeps the first name). -/
theorem mergeFacts_conflict_resolution_witness :
    (mergeResolve ⟨"u".toList, "int".toList, false, false⟩
        ⟨"u".toList, "long".toList, false, true⟩).TypeName = "long".toList ∧
    (mergeResolve ⟨"u".toList, "size_t".toList, true, false⟩
        ⟨"u".toList, "ptrdiff_t".toList, false, false⟩).TypeName =
      "size_t".toList := by
  constructor
  · exact (mergeFacts_conflict_resolution.2.1
      ⟨"u".toList, "int".toList, false, false⟩
      ⟨"u".toList, "long".toList, false, true⟩).1 (by decide)
  · exact ((mergeFacts_conflict_resolution.2.1
      ⟨"u".toList, "size_t".toList, true, false⟩
      ⟨"u".toList, "ptrdiff_t".toList, false, false⟩).2).1 (by decide)

/-- Claim C10: when facts with the same USR are merged, only the type name and
the (one-directional) `is_typedef` flag of the stored fact can change: the
merged fact keeps the USR and the `is_field` flag of the first fact seen
for that USR. -/
theorem mergeFacts_first_isField_retained :
    ∀ (rawFacts : List SymbolFact) (usr : Str) (f : SymbolFact)
      (rest : List SymbolFact),
      rawFacts.filter (fun g => decide (g.USR = usr)) = f :: rest →
      ∃ m, alookup usr (MergeFacts rawFacts) = some m ∧
        m.USR = f.USR ∧ m.IsField = f.IsField := by
  intro rawFacts usr f rest hfilter
  have h := mergeFacts_fold_lookup rawFacts [] usr
  rw [show (alookup usr ([] : List (Str × SymbolFact))) = none from rfl] at h
  rw [hfilter] at h
  refine ⟨rest.foldl mergeResolve f, ?_, ?_, ?_⟩
  · simpa [MergeFacts] using h
  · exact (foldl_mergeResolve_frame rest f).1
  · exact (foldl_mergeResolve_frame rest f).2

/-- Witness for C10 at a concrete two-fact conflict: the second fact wins
the type name, yet the first fact's `is_field` flag survives. -/
theorem mergeFacts_first_isField_retained_witness :
    ∃ m, alookup "u".toList
        (MergeFacts [⟨"u".toList, "int".toList, true, false⟩,
                     ⟨"u".toList, "long".toList, false, false⟩]) = some m ∧
      m.USR = "u".toList ∧ m.IsField = true := by
  have h := mergeFacts_first_isField_retained
    [⟨"u".toList, "int".toList, true, false⟩,
     ⟨"u".toList, "long".toList, false, false⟩]
    "u".toList ⟨"u".toList, "int".toList, true, false⟩
    [⟨"u".toList, "long".toList, false, false⟩] (by decide)
  simpa using h

/-! ## Fact-file round trip -/

theorem splitStream_append (d : Char) (a b : Str) (ha : d ∉ a) :
    splitStream d (a ++ d :: b) = a :: splitStream d b := by
  induction a with
  | nil => simp [splitStream]
  | cons c cs ih =>
      have hc : c ≠ d := fun h => ha (h ▸ List.mem_cons_self c cs)
      have ihr := ih (fun h => ha (List.mem_cons_of_mem c h))
      show splitStream d (c :: (cs ++ d :: b)) = (c :: cs) :: splitStream d b
      rw [splitStream, if_neg hc, ihr]

theorem newline_not_mem_factLine (f : SymbolFact) (hf : WellFormedFact f) :
    '\n' ∉ factLine f := by
  obtain ⟨u, t, fi, ft⟩ := f
  intro hmem
  obtain ⟨h1, h2, h3, h4, h5⟩ := hf
  cases fi <;> cases ft <;>
    simp only [factLine, List.mem_append, List.mem_cons] at hmem <;>
      simp at hmem <;> tauto

theorem parseFactLine_factLine (f : SymbolFact) (hf : WellFormedFact f) :
    parseFactLine (factLine f) = some f := by
  obtain ⟨u, t, fi, ft⟩ := f
  obtain ⟨h1, h2, h3, h4, h5⟩ := hf
  have hsplit : splitStream '\t' (factLine ⟨u, t, fi, ft⟩) =
      [u, t, [if fi then '1' else '0'], [if ft then '1' else '0']] := by
    rw [show factLine ⟨u, t, fi, ft⟩ = u ++ '\t' ::
        (t ++ '\t' :: (if fi then '1' else '0') ::
          '\t' :: (if ft then '1' else '0') :: []) from rfl]
    rw [splitStream_append '\t' _ _ h1]
    rw [splitStream_append '\t' _ _ h3]
    cases fi <;> cases ft <;> rfl
  have hne : factLine ⟨u, t, fi, ft⟩ ≠ [] := by
    rw [show factLine ⟨u, t, fi, ft⟩ = u ++ '\t' ::
        (t ++ '\t' :: (if fi then '1' else '0') ::
          '\t' :: (if ft then '1' else '0') :: []) from rfl]
    simp
  have hhead : (factLine ⟨u, t, fi, ft⟩).head? ≠ some '#' := by
    rw [show factLine ⟨u, t, fi, ft⟩ = u ++ '\t' ::
        (t ++ '\t' :: (if fi then '1' else '0') ::
          '\t' :: (if ft then '1' else '0') :: []) from rfl]
    cases u with
    | nil => simp
    | cons c cs =>
        simp only [List.head?] at h5
        simpa using h5
  rw [parseFactLine, if_neg hne, if_neg hhead]
  simp only [hsplit]
  cases fi <;> cases ft <;> simp [List.getD]

theorem splitStream_writeFacts (facts : List SymbolFact)
    (hwf : ∀ f ∈ facts, WellFormedFact f) :
    splitStream '\n' (WriteFacts facts) = facts.map factLine := by
  induction facts with
  | nil => rfl
  | cons f fs ih =>
      have hf := hwf f (List.mem_cons_self f fs)
      have hfs := fun g hg => hwf g (List.mem_cons_of_mem f hg)
      rw [show WriteFacts (f :: fs) = factLine f ++ '\n' :: WriteFacts fs
        from rfl]
      rw [splitStream_append '\n' _ _ (newline_not_mem_factLine f hf)]
      rw [ih hfs, List.map_cons]

/-- Amended claim C9: serializing a fact map with `WriteFacts` and parsing the
stream back with `ReadFacts` reproduces the facts exactly (hence also as
maps keyed by USR), provided no USR or type name contains a TAB or a
newline and no USR starts with `#`. -/
theorem readFacts_writeFacts_roundtrip (facts : List SymbolFact)
    (hwf : ∀ f ∈ facts, WellFormedFact f) :
    ReadFacts (WriteFacts facts) = facts := by
  rw [ReadFacts, splitStream_writeFacts facts hwf]
  induction facts with
  | nil => rfl
  | cons f fs ih =>
      have hf := hwf f (List.mem_cons_self f fs)
      have hfs := fun g hg => hwf g (List.mem_cons_of_mem f hg)
      rw [List.map_cons, List.filterMap_cons,
        parseFactLine_factLine f hf, ih hfs]

/-- Witness for the amended C9 at a realistic fact list. -/
theorem readFacts_writeFacts_roundtrip_witness :
    ReadFacts (WriteFacts
      [⟨"c:@F@main".toList, "size_t".toList, false, false⟩,
       ⟨"c:@S@s@FI@n".toList, "long long".toList, true, true⟩]) =
      [⟨"c:@F@main".toList, "size_t".toList, false, false⟩,
       ⟨"c:@S@s@FI@n".toList, "long long".toList, true, true⟩] :=
  readFacts_writeFacts_roundtrip _ (by decide)

/-- Counterexample to C9 as stated: a fact whose USR starts with `#` is
written as a line that `ReadFacts` then skips as a comment, so the round
trip loses the fact and the resulting maps differ. -/
theorem readFacts_writeFacts_not_universal :
    ReadFacts (WriteFacts [⟨"#a".toList, "int".toList, false, false⟩]) = [] ∧
    mapEqB
      (mapOfFacts
        (ReadFacts (WriteFacts [⟨"#a".toList, "int".toList, false, false⟩])))
      (mapOfFacts [⟨"#a".toList, "int".toList, false, false⟩]) = false := by
  decide

/-! ## Reduce phase exit semantics -/

/-- Amended claim C8: the reduce phase (`--phase=reduce`) exits 1 exactly when the facts
directory is usable, the merged facts differ from the stored global
state, and the write of the new global file succeeds; in every other
case — including a failing write after a detected change — it exits 0,
so a write failure is reported as "no change". -/
theorem reduceExitCode_characterization (w : ReduceWorld) :
    (reduceExitCode w = 1 ↔
      (w.dir ≠ [] ∧ w.iterError = false ∧
        IsConvergenceReached w.existingGlobal
          (MergeFacts (gatherFacts w.files)) = false ∧
        w.writeOk = true)) ∧
    (reduceExitCode w = 0 ↔
      (w.dir = [] ∨ w.iterError = true ∨
        IsConvergenceReached w.existingGlobal
          (MergeFacts (gatherFacts w.files)) = true ∨
        w.writeOk = false)) := by
  unfold reduceExitCode RunReduce
  by_cases h1 : w.dir = [] <;>
    by_cases h2 : w.iterError <;>
      by_cases h3 : IsConvergenceReached w.existingGlobal
        (MergeFacts (gatherFacts w.files)) <;>
        by_cases h4 : w.writeOk <;>
          simp [h1, h2, h3, h4]

/-- Witness for the amended C8: with a fresh directory holding one
per-TU facts file, no prior global file and a succeeding write, reduce
exits 1. -/
theorem reduceExitCode_characterization_witness :
    reduceExitCode
      { dir := "facts".toList,
        files := [⟨"a.facts".toList,
          some (WriteFacts [⟨"u".toList, "int".toList, false, false⟩])⟩],
        iterError := false, existingGlobal := none, writeOk := true } = 1 :=
  (reduceExitCode_characterization _).1.mpr
    ⟨by decide, rfl, by decide, rfl⟩

/-- Counterexample to C8 as stated: the merged facts differ from the
(absent) global state, yet a failing write makes reduce exit 0 — the
"state changed" exit 1 promised by the claim does not happen, and in
iterative mode the `false` return is read as convergence. -/
theorem reduceExitCode_write_failure :
    reduceExitCode
      { dir := "facts".toList,
        files := [⟨"a.facts".toList,
          some (WriteFacts [⟨"u".toList, "int".toList, false, false⟩])⟩],
        iterError := false, existingGlobal := none, writeOk := false } = 0 ∧
    IsConvergenceReached (none : Option Str)
      (MergeFacts (gatherFacts
        [⟨"a.facts".toList,
          some (WriteFacts [⟨"u".toList, "int".toList, false, false⟩])⟩])) =
      false ∧
    RunReduce
      { dir := "facts".toList,
        files := [⟨"a.facts".toList,
          some (WriteFacts [⟨"u".toList, "int".toList, false, false⟩])⟩],
        iterError := false, existingGlobal := none, writeOk := false } =
      false := by
  decide

/-- Amended claim C3: the location-level check `IsModifiable` does
classify every valid, non-macro location written in the main file as
Modifiable, regardless of the file's path or entry; but the file-level
check `CheckFileBoundary` has no main-file case — any file (the main
file included) with no file-backed entry is Fixed, and any file whose
entry path satisfies the external-path rules is Fixed. -/
theorem boundary_main_file_classification :
    (∀ (projectRoot excludePattern : Str) (loc : SrcLoc),
      loc.valid = true → loc.inExpansion = false → loc.inMainFile = true →
      IsModifiable projectRoot excludePattern loc = true) ∧
    (∀ (meta : Nat → FileMeta) (fr : Bool) (pr : Str) (dep : Str → Bool)
        (fuel fid : Nat),
      (meta fid).entryPath = none →
      CheckFileBoundary meta fr pr dep (fuel + 1) fid =
        BoundaryStatus.Fixed) ∧
    (∀ (meta : Nat → FileMeta) (fr : Bool) (pr : Str) (dep : Str → Bool)
        (fuel fid : Nat) (p : Str),
      (meta fid).entryPath = some p →
      IsExternalPath fr pr dep p = true →
      CheckFileBoundary meta fr pr dep (fuel + 1) fid =
        BoundaryStatus.Fixed) := by
  refine ⟨?_, ?_, ?_⟩
  · intro projectRoot excludePattern loc h1 h2 h3
    simp [IsModifiable, h1, h2, h3]
  · intro meta fr pr dep fuel fid hentry
    rw [CheckFileBoundary]
    by_cases hs : (meta fid).isSystemHeader <;> simp [hs, hentry]
  · intro meta fr pr dep fuel fid p hentry hext
    rw [CheckFileBoundary]
    by_cases hs : (meta fid).isSystemHeader <;> simp [hs, hentry, hext]

/-- Witness for the amended C3 at the two concrete main files. -/
theorem boundary_main_file_classification_witness :
    IsModifiable [] []
      { valid := true, inExpansion := false, inMainFile := true,
        absPath := none, excludeHit := false } = true ∧
    CheckFileBoundary (fun _ => mainFileNoEntry) false [] (fun _ => false)
      1 0 = BoundaryStatus.Fixed ∧
    CheckFileBoundary (fun _ => mainFileUsrPath) false [] (fun _ => false)
      1 0 = BoundaryStatus.Fixed := by
  refine ⟨?_, ?_, ?_⟩
  · exact boundary_main_file_classification.1 [] []
      { valid := true, inExpansion := false, inMainFile := true,
        absPath := none, excludeHit := false } rfl rfl rfl
  · exact boundary_main_file_classification.2.1 (fun _ => mainFileNoEntry)
      false [] (fun _ => false) 0 0 rfl
  · exact boundary_main_file_classification.2.2 (fun _ => mainFileUsrPath)
      false [] (fun _ => false) 0 0 "/usr/src/app/main.c".toList rfl
      (by decide)

/-- Counterexample to C3 as stated: `CheckFileBoundary` classifies the
main file as Fixed both when it has no file-backed entry and when its
path matches the `/usr/` external rule, although the claim promises
Modifiable in both situations. -/
theorem boundary_main_file_not_always_modifiable :
    mainFileNoEntry.isMainFile = true ∧
    CheckFileBoundary (fun _ => mainFileNoEntry) false [] (fun _ => false)
      1 0 = BoundaryStatus.Fixed ∧
    mainFileUsrPath.isMainFile = true ∧
    CheckFileBoundary (fun _ => mainFileUsrPath) false [] (fun _ => false)
      1 0 = BoundaryStatus.Fixed := by
  decide

/-- Amended claim C2: a recorded explicit cast is replaced by its
subexpression's source text iff both recorded ranges are valid, the begin
location of the cast passes `IsModifiable` (valid, non-macro, and in the
main file or under a configured project root and not excluded), and the
subexpression's text is non-empty; the subexpression's type, the cast's
written type and the subexpression's own location are never consulted. -/
theorem removeExplicitCast_characterization
    (projectRoot excludePattern : Str) (rec : CastRecord) :
    ((∃ t, RemoveExplicitCast projectRoot excludePattern rec = some t) ↔
      (rec.castRangeValid = true ∧ rec.subRangeValid = true ∧
        IsModifiable projectRoot excludePattern rec.castBegin = true ∧
        rec.subText ≠ [])) ∧
    (∀ t, RemoveExplicitCast projectRoot excludePattern rec = some t →
      t = rec.subText) := by
  unfold RemoveExplicitCast
  split_ifs with h1 h2
  · refine ⟨⟨fun _ => ⟨h1.1, h1.2.1, h1.2.2, h2⟩,
      fun _ => ⟨rec.subText, rfl⟩⟩, ?_⟩
    intro t ht
    exact (Option.some.inj ht).symm
  · refine ⟨⟨fun h => ?_, fun h => ?_⟩, fun t ht => ?_⟩
    · obtain ⟨t, ht⟩ := h; cases ht
    · exact absurd (not_not.mp h2) h.2.2.2
    · cases ht
  · refine ⟨⟨fun h => ?_, fun h => ?_⟩, fun t ht => ?_⟩
    · obtain ⟨t, ht⟩ := h; cases ht
    · exact absurd ⟨h.1, h.2.1, h.2.2.1⟩ h1
    · cases ht

/-- Witness for the amended C2: the characterization applied at the
concrete recorded cast. -/
theorem removeExplicitCast_characterization_witness :
    ∃ t, RemoveExplicitCast [] [] mismatchedCast = some t :=
  (removeExplicitCast_characterization [] [] mismatchedCast).1.mpr
    ⟨rfl, rfl, by decide, by decide⟩

/-- Counterexample to C2 as stated: the code replaces a recorded cast
whose written type differs from the subexpression's unqualified type, so
type equality is not among the preconditions of the removal. -/
theorem removeExplicitCast_ignores_types :
    RemoveExplicitCast [] [] mismatchedCast = some "n".toList ∧
    ¬ ClaimCastPre mismatchedCast := by
  constructor
  · decide
  · intro h
    exact absurd h.1 (by decide)

/-- Claim C5: a variable bound to a negative integer literal is never
rewritten to an unsigned candidate type.  In the single-declaration path
no rewrite of such a variable carries an unsigned type; in the
multi-declaration split the only unsigned target such a variable can
receive is its own declared type (so no promotion to an unsigned
candidate happens there either). -/
theorem negative_literal_blocks_unsigned :
    (∀ (widest : List (Nat × QType)) (negVars : List Nat)
        (isVar hasTSI : Nat → Bool) (origType : Nat → QType)
        (d : Nat) (t : QType),
      (d, t) ∈ EndTypeRewrites widest negVars isVar hasTSI origType →
      negVars.contains d = true → t.unsignedInt = false) ∧
    (∀ (stmtDecls : List Nat) (widest : List (Nat × QType))
        (negVars : List Nat) (origType : Nat → QType) (d : Nat) (t : QType),
      (d, t) ∈ HandleMultiDeclTargets stmtDecls widest negVars origType →
      negVars.contains d = true → t.unsignedInt = true →
      t = origType d) := by
  constructor
  · intro widest negVars isVar hasTSI origType d t hmem hneg
    obtain ⟨⟨d0, t0⟩, hp, hcond⟩ := List.mem_filterMap.mp hmem
    dsimp only at hcond
    split at hcond
    · cases hcond
    · rename_i h1
      split at hcond
      · split at hcond
        · cases hcond
          cases hu : t.unsignedInt
          · rfl
          · exact absurd ⟨hneg, hu⟩ h1
        · cases hcond
      · cases hcond
  · intro stmtDecls widest negVars origType d t hmem hneg hu
    obtain ⟨d0, hd0, heq⟩ := List.mem_map.mp hmem
    split at heq
    · rename_i cand hl
      split at heq
      · rename_i hc
        cases heq
        rcases hc with hc | hc
        · exact absurd hneg hc
        · exact absurd hu hc
      · cases heq
        rfl
    · cases heq
      rfl

/-- Witness for C5 at concrete inputs: a negative-literal variable keeps
a signed rewrite in the single path, and keeps its own (already
unsigned) declared type in the multi-declaration split. -/
theorem negative_literal_blocks_unsigned_witness :
    longQ.unsignedInt = false ∧ uintQ = uintQ := by
  constructor
  · exact negative_literal_blocks_unsigned.1 [(0, longQ)] [0]
      (fun _ => true) (fun _ => true) (fun _ => intQ) 0 longQ
      (by decide) (by decide)
  · exact negative_literal_blocks_unsigned.2 [0] [(0, sizeQ)] [0]
      (fun _ => uintQ) 0 uintQ (by decide) (by decide) (by decide)

/-! ## Properties of `GetWider` -/

/-- Amended claim C7: the ordering used by the solver satisfies, in
order — the non-null operand wins when exactly one is null; identical
(canonically same) types return A; when either type is incomplete, B is
returned (not "the other operand"); when either type is non-scalar, B is
returned; otherwise the larger bit width wins and on equal widths an
unsigned B beats a signed A, with A returned on every other tie. -/
theorem getWider_characterization :
    (∀ b : Option QType, GetWider none b = b) ∧
    (∀ a : QType, GetWider (some a) none = some a) ∧
    (∀ a b : QType, a.canon = b.canon → GetWider (some a) (some b) = some a) ∧
    (∀ a b : QType, a.canon ≠ b.canon →
      (a.incomplete = true ∨ b.incomplete = true) →
      GetWider (some a) (some b) = some b) ∧
    (∀ a b : QType, a.canon ≠ b.canon → a.incomplete = false →
      b.incomplete = false → (a.scalar = false ∨ b.scalar = false) →
      GetWider (some a) (some b) = some b) ∧
    (∀ a b : QType, a.canon ≠ b.canon → a.incomplete = false →
      b.incomplete = false → a.scalar = true → b.scalar = true →
      ((b.size > a.size → GetWider (some a) (some b) = some b) ∧
       (a.size > b.size → GetWider (some a) (some b) = some a) ∧
       (a.size = b.size → b.unsignedInt = true → a.signedInt = true →
         GetWider (some a) (some b) = some b) ∧
       (a.size = b.size → ¬ (b.unsignedInt = true ∧ a.signedInt = true) →
         GetWider (some a) (some b) = some a))) := by
  refine ⟨?_, ?_, ?_, ?_, ?_, ?_⟩
  · intro b; cases b <;> rfl
  · intro a; rfl
  · intro a b h; simp [GetWider, h]
  · intro a b h h2
    rcases h2 with h2 | h2 <;> simp [GetWider, h, h2]
  · intro a b h h1 h2 h3
    rcases h3 with h3 | h3 <;> simp [GetWider, h, h1, h2, h3]
  · intro a b h h1 h2 h3 h4
    refine ⟨?_, ?_, ?_, ?_⟩
    · intro hsz; simp [GetWider, h, h1, h2, h3, h4, hsz]
    · intro hsz
      simp [GetWider, h, h1, h2, h3, h4, hsz, Nat.not_lt.mpr (Nat.le_of_lt hsz)]
    · intro hsz hu hs
      simp [GetWider, h, h1, h2, h3, h4, hsz, hu, hs]
    · intro hsz hus
      simp [GetWider, h, h1, h2, h3, h4, hsz, hus]

/-- Witness for the amended C7: larger width wins, and an incomplete B is
returned. -/
theorem getWider_characterization_witness :
    GetWider (some intQ) (some longlongQ) = some longlongQ ∧
    GetWider (some intQ) (some incompleteQ) = some incompleteQ := by
  constructor
  · exact (getWider_characterization.2.2.2.2.2 intQ longlongQ (by decide)
      rfl rfl rfl rfl).1 (by decide)
  · exact getWider_characterization.2.2.2.1 intQ incompleteQ (by decide)
      (Or.inr rfl)

/-- Counterexample to C7 as stated: with A complete (`int`) and B
incomplete, the code returns the incomplete B, not "the other operand"
A — the incomplete-type rule prefers B unconditionally. -/
theorem getWider_incomplete_returns_b :
    GetWider (some intQ) (some incompleteQ) = some incompleteQ ∧
    intQ.incomplete = false ∧ incompleteQ.incomplete = true ∧
    (some incompleteQ : Option QType) ≠ some intQ := by decide

/-! ## Phase B lemmas -/

theorem lookupD_ensureNode (d e : Nat) (ns : NodesMap) :
    lookupD d (ensureNode e ns) = lookupD d ns := by
  unfold ensureNode
  by_cases h : acontains e ns
  · rw [if_pos h]
  · rw [if_neg h]
    unfold lookupD
    rw [alookup_append]
    by_cases hd : d = e
    · subst hd
      have he : alookup d ns = none := by
        unfold acontains at h
        cases hx : alookup d ns with
        | none => rfl
        | some v => rw [hx] at h; simp at h
      rw [he]
      simp [alookup]
    · cases hx : alookup d ns with
      | none =>
          simp only [hx]
          by_cases he : e = d <;> simp [alookup, he]
      | some v => simp

theorem acontains_ensureNode_self (d : Nat) (ns : NodesMap) :
    acontains d (ensureNode d ns) = true := by
  unfold ensureNode
  by_cases h : acontains d ns
  · simp [h]
  · rw [if_neg h]
    unfold acontains at h ⊢
    rw [alookup_append]
    cases hx : alookup d ns with
    | none => simp [alookup]
    | some v => simp

theorem acontains_ensureNode_mono (d e : Nat) (ns : NodesMap)
    (h : acontains d ns = true) : acontains d (ensureNode e ns) = true := by
  unfold ensureNode
  by_cases he : acontains e ns
  · simpa [he] using h
  · rw [if_neg he]
    unfold acontains at h ⊢
    rw [alookup_append]
    cases hx : alookup d ns with
    | none => rw [hx] at h; simp at h
    | some v => simp

theorem lookupD_aupdate_self_present (d : Nat) (f : NodeState → NodeState)
    (ns : NodesMap) (h : acontains d ns = true) :
    lookupD d (aupdate d f ns) = f (lookupD d ns) := by
  unfold lookupD
  rw [alookup_aupdate_self]
  unfold acontains at h
  cases hx : alookup d ns with
  | none => rw [hx] at h; simp at h
  | some v => simp

theorem lookupD_aupdate_ne (d e : Nat) (f : NodeState → NodeState)
    (ns : NodesMap) (h : d ≠ e) :
    lookupD d (aupdate e f ns) = lookupD d ns := by
  unfold lookupD
  rw [alookup_aupdate_of_ne h]

/-- The forward flow of one symbolic-constraint step: the result's
constraint becomes the widening of its previous constraint by the floored
operation type (also when the step makes no change). -/
theorem stepB_result_constraint (ctx : CtxModel) (ns : NodesMap)
    (sc : SymbolicConstraint) :
    (lookupD sc.result (stepB ctx ns sc).1).constraintType =
      GetWider (lookupD sc.result ns).constraintType
        (flooredOpType ctx ns sc) := by
  have hl : ∀ x, lookupD x
      (ensureNode sc.rhs (ensureNode sc.lhs (ensureNode sc.result ns))) =
        lookupD x ns := fun x => by
    rw [lookupD_ensureNode, lookupD_ensureNode, lookupD_ensureNode]
  have hc : acontains sc.result
      (ensureNode sc.rhs (ensureNode sc.lhs (ensureNode sc.result ns))) =
        true :=
    acontains_ensureNode_mono _ _ _
      (acontains_ensureNode_mono _ _ _ (acontains_ensureNode_self _ _))
  unfold stepB
  dsimp only
  split
  · rename_i hptr
    split
    · rw [lookupD_aupdate_self_present _ _ _ hc]
      dsimp only
      simp only [hl] at hptr ⊢
      simp only [flooredOpType]
      rw [if_pos hptr]
    · rename_i hne
      push_neg at hne
      simp only [hl] at hne hptr ⊢
      simp only [flooredOpType]
      rw [if_pos hptr]
      exact hne.symm
  · rename_i hptr
    split
    · rw [lookupD_aupdate_self_present _ _ _ hc]
      dsimp only
      simp only [hl] at hptr ⊢
      simp only [flooredOpType]
      rw [if_neg hptr]
    · rename_i hne
      push_neg at hne
      simp only [hl] at hne hptr ⊢
      simp only [flooredOpType]
      rw [if_neg hptr]
      exact hne.symm

/-- A step never writes to any node other than the constraint's result
(there is no backward flow to the operands). -/
theorem stepB_other_nodes (ctx : CtxModel) (ns : NodesMap)
    (sc : SymbolicConstraint) (d : Nat) (h : d ≠ sc.result) :
    lookupD d (stepB ctx ns sc).1 = lookupD d ns := by
  have hl : ∀ x, lookupD x
      (ensureNode sc.rhs (ensureNode sc.lhs (ensureNode sc.result ns))) =
        lookupD x ns := fun x => by
    rw [lookupD_ensureNode, lookupD_ensureNode, lookupD_ensureNode]
  unfold stepB
  dsimp only
  split
  · split
    · rw [lookupD_aupdate_ne _ _ _ _ h, hl]
    · exact hl d
  · split
    · rw [lookupD_aupdate_ne _ _ _ _ h, hl]
    · exact hl d

theorem passB_fold_other (ctx : CtxModel) (scs : List SymbolicConstraint)
    (d : Nat) (h : ∀ sc ∈ scs, sc.result ≠ d) :
    ∀ acc : NodesMap × Bool,
      lookupD d (scs.foldl
        (fun acc sc =>
          let r := stepB ctx acc.1 sc
          (r.1, acc.2 || r.2)) acc).1 = lookupD d acc.1 := by
  induction scs with
  | nil => intro acc; rfl
  | cons sc rest ih =>
      intro acc
      rw [List.foldl_cons]
      rw [ih (fun x hx => h x (List.mem_cons_of_mem sc hx))]
      exact stepB_other_nodes ctx acc.1 sc d
        (fun hd => h sc (List.mem_cons_self sc rest) hd.symm)

theorem passB_other (ctx : CtxModel) (scs : List SymbolicConstraint)
    (ns : NodesMap) (d : Nat) (h : ∀ sc ∈ scs, sc.result ≠ d) :
    lookupD d (passB ctx scs ns).1 = lookupD d ns :=
  passB_fold_other ctx scs d h (ns, false)

theorem phaseBGo_other (ctx : CtxModel) (scs : List SymbolicConstraint)
    (d : Nat) (h : ∀ sc ∈ scs, sc.result ≠ d) :
    ∀ (fuel : Nat) (ns : NodesMap),
      lookupD d (phaseBGo ctx scs fuel ns) = lookupD d ns := by
  intro fuel
  induction fuel with
  | zero => intro ns; rfl
  | succ m ih =>
      intro ns
      unfold phaseBGo
      dsimp only
      split
      · rw [ih, passB_other ctx scs ns d h]
      · exact passB_other ctx scs ns d h

theorem phaseBGo_iter (ctx : CtxModel) (scs : List SymbolicConstraint) :
    ∀ (fuel : Nat) (ns : NodesMap),
      ∃ k, k ≤ fuel ∧ phaseBGo ctx scs fuel ns = passIter ctx scs k ns := by
  intro fuel
  induction fuel with
  | zero => intro ns; exact ⟨0, Nat.le_refl 0, rfl⟩
  | succ m ih =>
      intro ns
      unfold phaseBGo
      dsimp only
      split
      · obtain ⟨k, hk, heq⟩ := ih (passB ctx scs ns).1
        exact ⟨k + 1, Nat.succ_le_succ hk, by rw [heq]; rfl⟩
      · exact ⟨1, Nat.succ_le_succ (Nat.zero_le m), rfl⟩

theorem phaseB_quiescent (ctx : CtxModel) (scs : List SymbolicConstraint)
    (ns : NodesMap) (h : (passB ctx scs ns).2 = false) :
    phaseB ctx scs ns = (passB ctx scs ns).1 := by
  unfold phaseB
  rw [phaseBGo]
  simp [h]

/-- Amended claim C1: Phase B runs at most 25 passes over the symbolic
constraints and exits on quiescence (a pass reporting no change ends the
loop with that pass's state); each step applies only the forward flow,
widening the result's constraint to `wider(result.type, op_type)` with
`op_type = wider(lhs.type, rhs.type)` floored at `ptrdiff_t` when either
operand is a pointer offset; no backward flow exists — a step leaves all
nodes other than the result untouched, and a declaration that is not the
result of any symbolic constraint keeps its pre-Phase-B state. -/
theorem phaseB_forward_flow_only :
    (∀ (ctx : CtxModel) (scs : List SymbolicConstraint) (ns : NodesMap),
      ∃ k, k ≤ 25 ∧ phaseB ctx scs ns = passIter ctx scs k ns) ∧
    (∀ (ctx : CtxModel) (scs : List SymbolicConstraint) (ns : NodesMap),
      (passB ctx scs ns).2 = false →
      phaseB ctx scs ns = (passB ctx scs ns).1) ∧
    (∀ (ctx : CtxModel) (ns : NodesMap) (sc : SymbolicConstraint),
      (lookupD sc.result (stepB ctx ns sc).1).constraintType =
        GetWider (lookupD sc.result ns).constraintType
          (flooredOpType ctx ns sc)) ∧
    (∀ (ctx : CtxModel) (ns : NodesMap) (sc : SymbolicConstraint) (d : Nat),
      d ≠ sc.result → lookupD d (stepB ctx ns sc).1 = lookupD d ns) ∧
    (∀ (ctx : CtxModel) (scs : List SymbolicConstraint) (ns : NodesMap)
        (d : Nat),
      (∀ sc ∈ scs, sc.result ≠ d) →
      lookupD d (phaseB ctx scs ns) = lookupD d ns) :=
  ⟨fun ctx scs ns => phaseBGo_iter ctx scs 25 ns,
   phaseB_quiescent,
   stepB_result_constraint,
   stepB_other_nodes,
   fun ctx scs ns d h => phaseBGo_other ctx scs d h 25 ns⟩

/-- Witness for the amended C1 at the concrete C1 scenario: the first
pass is already quiescent, and a declaration that is no constraint's
result is untouched by Phase B. -/
theorem phaseB_forward_flow_only_witness :
    phaseB lp64Ctx c1Cons c1Nodes = (passB lp64Ctx c1Cons c1Nodes).1 ∧
    lookupD 1 (phaseB lp64Ctx [] c1Nodes) = lookupD 1 c1Nodes := by
  constructor
  · exact phaseB_forward_flow_only.2.1 lp64Ctx c1Cons c1Nodes (by decide)
  · exact phaseB_forward_flow_only.2.2.2.2 lp64Ctx [] c1Nodes 1
      (by intro sc hsc; cases hsc)

/-- Counterexample to C1 as stated: in the scenario `n0 = n1 + n2` with
`n0 : long long` and `n1 n2 : int`, after `Solve`'s phases A and B the
result's type `long long` is strictly wider than the operation type
`int` and the operands are not fixed, yet operand `n1` still has
constraint `int` — the backward flow the claim describes (widening the
operand to `wider(int, long long) = long long`) never happens. -/
theorem phaseB_no_backward_flow :
    (lookupD 1 (solveFinalStates lp64Ctx c1Nodes (fun _ => [])
      c1Cons)).constraintType = some intQ ∧
    (lookupD 1 (solveFinalStates lp64Ctx c1Nodes (fun _ => [])
      c1Cons)).isFixed = false ∧
    (lookupD 0 (solveFinalStates lp64Ctx c1Nodes (fun _ => [])
      c1Cons)).constraintType = some longlongQ ∧
    flooredOpType lp64Ctx
      (solveFinalStates lp64Ctx c1Nodes (fun _ => []) c1Cons)
      ⟨0, OpKind.Add, 1, 2⟩ = some intQ ∧
    GetWider (some longlongQ) (some intQ) = some longlongQ ∧
    (some longlongQ : Option QType) ≠ some intQ ∧
    GetWider (some intQ) (some longlongQ) ≠ some intQ := by decide

theorem keys_aupdate (k : Nat) (f : NodeState → NodeState) (m : NodesMap) :
    (aupdate k f m).map Prod.fst = m.map Prod.fst := by
  induction m with
  | nil => rfl
  | cons p rest ih =>
      obtain ⟨a, b⟩ := p
      by_cases h : a = k <;> simp [aupdate, h, ih]

theorem acontains_iff_mem_keys (d : Nat) (m : NodesMap) :
    acontains d m = true ↔ d ∈ m.map Prod.fst := by
  induction m with
  | nil => simp [acontains, alookup]
  | cons p rest ih =>
      obtain ⟨a, b⟩ := p
      by_cases h : a = d
      · subst h
        simp [acontains, alookup]
      · have hda : ¬ d = a := fun hh => h hh.symm
        simp [acontains, alookup, h, hda] at ih ⊢
        exact ih

theorem alookup_mem {k : Nat} {v : NodeState} {m : NodesMap}
    (h : alookup k m = some v) : (k, v) ∈ m := by
  induction m with
  | nil => cases h
  | cons p rest ih =>
      obtain ⟨a, b⟩ := p
      by_cases ha : a = k
      · subst ha
        rw [alookup, if_pos rfl] at h
        exact (Option.some.inj h) ▸ List.mem_cons_self _ _
      · rw [alookup, if_neg ha] at h
        exact List.mem_cons_of_mem _ (ih h)

theorem mem_alookup_of_nodup {k : Nat} {v : NodeState} {m : NodesMap}
    (hnd : NodupKeys m) (h : (k, v) ∈ m) : alookup k m = some v := by
  induction m with
  | nil => cases h
  | cons p rest ih =>
      obtain ⟨a, b⟩ := p
      have hnd2 : a ∉ rest.map Prod.fst ∧ NodupKeys rest := by
        unfold NodupKeys at hnd
        rw [List.map_cons, List.nodup_cons] at hnd
        exact hnd
      rcases List.mem_cons.mp h with h | h
      · cases h
        rw [alookup, if_pos rfl]
      · by_cases ha : a = k
        · subst ha
          exact absurd (List.mem_map_of_mem Prod.fst h) hnd2.1
        · rw [alookup, if_neg ha]
          exact ih hnd2.2 h

theorem nodupKeys_ensureNode (e : Nat) (m : NodesMap) (h : NodupKeys m) :
    NodupKeys (ensureNode e m) := by
  unfold ensureNode
  by_cases hc : acontains e m
  · simpa [hc]
  · rw [if_neg hc]
    unfold NodupKeys at h ⊢
    rw [List.map_append]
    have he : e ∉ m.map Prod.fst := by
      intro hmem
      exact hc ((acontains_iff_mem_keys e m).mpr hmem)
    simp [List.nodup_append, h, he]

theorem nodupKeys_aupdate (k : Nat) (f : NodeState → NodeState)
    (m : NodesMap) (h : NodupKeys m) : NodupKeys (aupdate k f m) := by
  unfold NodupKeys
  rw [keys_aupdate]
  exact h

theorem nodupKeys_updateNodeD (k : Nat) (f : NodeState → NodeState)
    (m : NodesMap) (h : NodupKeys m) : NodupKeys (updateNodeD k f m) :=
  nodupKeys_aupdate k f _ (nodupKeys_ensureNode k m h)

theorem nodupKeys_foldl {α : Type} (step : NodesMap → α → NodesMap)
    (hstep : ∀ m x, NodupKeys m → NodupKeys (step m x)) :
    ∀ (l : List α) (m : NodesMap), NodupKeys m →
      NodupKeys (l.foldl step m) := by
  intro l
  induction l with
  | nil => intro m h; exact h
  | cons x rest ih =>
      intro m h
      rw [List.foldl_cons]
      exact ih (step m x) (hstep m x h)

theorem nodupKeys_stepB (ctx : CtxModel) (ns : NodesMap)
    (sc : SymbolicConstraint) (h : NodupKeys ns) :
    NodupKeys (stepB ctx ns sc).1 := by
  have h3 : NodupKeys
      (ensureNode sc.rhs (ensureNode sc.lhs (ensureNode sc.result ns))) :=
    nodupKeys_ensureNode _ _ (nodupKeys_ensureNode _ _
      (nodupKeys_ensureNode _ _ h))
  unfold stepB
  dsimp only
  split
  · split
    · exact nodupKeys_aupdate _ _ _ h3
    · exact h3
  · split
    · exact nodupKeys_aupdate _ _ _ h3
    · exact h3

theorem nodupKeys_passB (ctx : CtxModel) (scs : List SymbolicConstraint)
    (ns : NodesMap) (h : NodupKeys ns) : NodupKeys (passB ctx scs ns).1 := by
  unfold passB
  have haux :
      ∀ (l : List SymbolicConstraint) (acc : NodesMap × Bool),
        NodupKeys acc.1 →
        NodupKeys ((l.foldl
          (fun acc sc =>
            let r := stepB ctx acc.1 sc
            (r.1, acc.2 || r.2)) acc)).1 := by
    intro l
    induction l with
    | nil => intro acc hacc; exact hacc
    | cons sc rest ih =>
        intro acc hacc
        rw [List.foldl_cons]
        exact ih _ (nodupKeys_stepB ctx acc.1 sc hacc)
  exact haux scs (ns, false) h

theorem nodupKeys_phaseBGo (ctx : CtxModel) (scs : List SymbolicConstraint) :
    ∀ (fuel : Nat) (ns : NodesMap), NodupKeys ns →
      NodupKeys (phaseBGo ctx scs fuel ns) := by
  intro fuel
  induction fuel with
  | zero => intro ns h; exact h
  | succ m ih =>
      intro ns h
      unfold phaseBGo
      dsimp only
      split
      · exact ih _ (nodupKeys_passB ctx scs ns h)
      · exact nodupKeys_passB ctx scs ns h

theorem nodupKeys_processSCC (ctx : CtxModel) (ns : NodesMap)
    (scc : List Nat) (h : NodupKeys ns) :
    NodupKeys (processSCC ctx ns scc) := by
  unfold processSCC
  exact nodupKeys_foldl _ (fun m x hm => nodupKeys_updateNodeD _ _ m hm)
    scc ns h

theorem nodupKeys_phaseA (ctx : CtxModel) (ns : NodesMap)
    (adj : Nat → List Nat) (h : NodupKeys ns) :
    NodupKeys (phaseA ctx ns adj) := by
  unfold phaseA
  exact nodupKeys_foldl _ (fun m x hm => nodupKeys_processSCC ctx m x hm)
    _ ns h

theorem nodupKeys_solveFinalStates (ctx : CtxModel) (ns : NodesMap)
    (adj : Nat → List Nat) (scs : List SymbolicConstraint)
    (h : NodupKeys ns) : NodupKeys (solveFinalStates ctx ns adj scs) :=
  nodupKeys_phaseBGo ctx scs 25 _ (nodupKeys_phaseA ctx ns adj h)

theorem kfo_refl (m : NodesMap) : KeepsFixedOrig m m :=
  fun _ st h => ⟨st, h, rfl, rfl⟩

theorem kfo_trans {a b c : NodesMap} (h1 : KeepsFixedOrig a b)
    (h2 : KeepsFixedOrig b c) : KeepsFixedOrig a c := by
  intro d st h
  obtain ⟨st2, hl2, hf2, ho2⟩ := h1 d st h
  obtain ⟨st3, hl3, hf3, ho3⟩ := h2 d st2 hl2
  exact ⟨st3, hl3, hf3.trans hf2, ho3.trans ho2⟩

theorem kfo_aupdate (k : Nat) (f : NodeState → NodeState) (m : NodesMap)
    (hf : ∀ st, (f st).isFixed = st.isFixed ∧
      (f st).originalType = st.originalType) :
    KeepsFixedOrig m (aupdate k f m) := by
  intro d st h
  by_cases hd : d = k
  · subst hd
    refine ⟨f st, ?_, (hf st).1, (hf st).2⟩
    rw [alookup_aupdate_self, h]
    rfl
  · exact ⟨st, by rw [alookup_aupdate_of_ne hd]; exact h, rfl, rfl⟩

theorem kfo_ensureNode (e : Nat) (m : NodesMap) :
    KeepsFixedOrig m (ensureNode e m) := by
  intro d st h
  refine ⟨st, ?_, rfl, rfl⟩
  unfold ensureNode
  by_cases hc : acontains e m
  · simpa [hc] using h
  · rw [if_neg hc, alookup_append, h]

theorem kfo_updateNodeD (k : Nat) (f : NodeState → NodeState) (m : NodesMap)
    (hf : ∀ st, (f st).isFixed = st.isFixed ∧
      (f st).originalType = st.originalType) :
    KeepsFixedOrig m (updateNodeD k f m) :=
  kfo_trans (kfo_ensureNode k m) (kfo_aupdate k f _ hf)

theorem kfo_foldl {α : Type} (step : NodesMap → α → NodesMap)
    (hstep : ∀ m x, KeepsFixedOrig m (step m x)) :
    ∀ (l : List α) (m : NodesMap), KeepsFixedOrig m (l.foldl step m) := by
  intro l
  induction l with
  | nil => intro m; exact kfo_refl m
  | cons x rest ih =>
      intro m
      rw [List.foldl_cons]
      exact kfo_trans (hstep m x) (ih (step m x))

theorem kfo_stepB (ctx : CtxModel) (ns : NodesMap)
    (sc : SymbolicConstraint) : KeepsFixedOrig ns (stepB ctx ns sc).1 := by
  have h3 : KeepsFixedOrig ns
      (ensureNode sc.rhs (ensureNode sc.lhs (ensureNode sc.result ns))) :=
    kfo_trans (kfo_ensureNode _ _)
      (kfo_trans (kfo_ensureNode _ _) (kfo_ensureNode _ _))
  unfold stepB
  dsimp only
  split
  · split
    · exact kfo_trans h3 (kfo_aupdate _ _ _ (fun st => ⟨rfl, rfl⟩))
    · exact h3
  · split
    · exact kfo_trans h3 (kfo_aupdate _ _ _ (fun st => ⟨rfl, rfl⟩))
    · exact h3

theorem kfo_passB (ctx : CtxModel) (scs : List SymbolicConstraint)
    (ns : NodesMap) : KeepsFixedOrig ns (passB ctx scs ns).1 := by
  unfold passB
  have haux :
      ∀ (l : List SymbolicConstraint) (acc : NodesMap × Bool),
        KeepsFixedOrig acc.1 ((l.foldl
          (fun acc sc =>
            let r := stepB ctx acc.1 sc
            (r.1, acc.2 || r.2)) acc)).1 := by
    intro l
    induction l with
    | nil => intro acc; exact kfo_refl acc.1
    | cons sc rest ih =>
        intro acc
        rw [List.foldl_cons]
        dsimp only
        exact kfo_trans (kfo_stepB ctx acc.1 sc)
          (ih ((stepB ctx acc.1 sc).1, acc.2 || (stepB ctx acc.1 sc).2))
  exact haux scs (ns, false)

theorem kfo_phaseBGo (ctx : CtxModel) (scs : List SymbolicConstraint) :
    ∀ (fuel : Nat) (ns : NodesMap),
      KeepsFixedOrig ns (phaseBGo ctx scs fuel ns) := by
  intro fuel
  induction fuel with
  | zero => intro ns; exact kfo_refl ns
  | succ m ih =>
      intro ns
      unfold phaseBGo
      dsimp only
      split
      · exact kfo_trans (kfo_passB ctx scs ns) (ih _)
      · exact kfo_passB ctx scs ns

theorem kfo_processSCC (ctx : CtxModel) (ns : NodesMap) (scc : List Nat) :
    KeepsFixedOrig ns (processSCC ctx ns scc) := by
  unfold processSCC
  dsimp only
  apply kfo_foldl
  intro m x
  apply kfo_updateNodeD
  intro st
  exact ⟨rfl, rfl⟩

theorem kfo_phaseA (ctx : CtxModel) (ns : NodesMap) (adj : Nat → List Nat) :
    KeepsFixedOrig ns (phaseA ctx ns adj) := by
  unfold phaseA
  exact kfo_foldl _ (fun m x => kfo_processSCC ctx m x) _ ns

theorem kfo_solveFinalStates (ctx : CtxModel) (ns : NodesMap)
    (adj : Nat → List Nat) (scs : List SymbolicConstraint) :
    KeepsFixedOrig ns (solveFinalStates ctx ns adj scs) :=
  kfo_trans (kfo_phaseA ctx ns adj) (kfo_phaseBGo ctx scs 25 _)

/-! ## Characterization of the update map -/

theorem phaseCEmit_key (ctx : CtxModel) (p : Nat × NodeState)
    (q : Nat × NodeState) (h : phaseCEmit ctx p = some q) : q.1 = p.1 := by
  unfold phaseCEmit at h
  split at h
  · cases h
  · split at h
    · cases h; rfl
    · cases h

theorem phaseCStep_toList (ctx : CtxModel) (upd : NodesMap)
    (p : Nat × NodeState) (h : alookup p.1 upd = none) :
    phaseCStep ctx upd p = upd ++ (phaseCEmit ctx p).toList := by
  unfold phaseCStep phaseCEmit
  split
  · simp
  · dsimp only
    split
    · unfold aset
      rw [h]
      rfl
    · simp

theorem phaseC_fold_eq (ctx : CtxModel) :
    ∀ (m upd : NodesMap), NodupKeys m →
      (∀ d, d ∈ m.map Prod.fst → alookup d upd = none) →
      m.foldl (phaseCStep ctx) upd = upd ++ m.filterMap (phaseCEmit ctx) := by
  intro m
  induction m with
  | nil => intro upd _ _; simp
  | cons p ps ih =>
      intro upd hnd habs
      have hnd2 : p.1 ∉ ps.map Prod.fst ∧ NodupKeys ps := by
        unfold NodupKeys at hnd
        rw [List.map_cons, List.nodup_cons] at hnd
        exact hnd
      have hp1 : alookup p.1 upd = none :=
        habs p.1 (by simp)
      rw [List.foldl_cons, phaseCStep_toList ctx upd p hp1]
      have habs2 : ∀ d, d ∈ ps.map Prod.fst →
          alookup d (upd ++ (phaseCEmit ctx p).toList) = none := by
        intro d hd
        rw [alookup_append, habs d (by simp [hd])]
        cases hq : phaseCEmit ctx p with
        | none => rfl
        | some q =>
            have hk : q.1 = p.1 := phaseCEmit_key ctx p q hq
            have hdp : d ≠ p.1 := fun hh => hnd2.1 (hh ▸ hd)
            have hpd : ¬ p.1 = d := fun hh => hdp hh.symm
            simp [alookup, hk, hpd]
      rw [ih (upd ++ (phaseCEmit ctx p).toList) hnd2.2 habs2]
      rw [List.filterMap_cons]
      cases hq : phaseCEmit ctx p <;> simp [List.append_assoc]

theorem phaseC_eq_filterMap (ctx : CtxModel) (m : NodesMap)
    (h : NodupKeys m) : phaseC ctx m = m.filterMap (phaseCEmit ctx) := by
  unfold phaseC
  rw [phaseC_fold_eq ctx m [] h (fun d _ => rfl)]
  rfl

theorem phaseC_contains_iff (ctx : CtxModel) (m : NodesMap)
    (hnd : NodupKeys m) (d : Nat) (st : NodeState)
    (hlk : alookup d m = some st) :
    (acontains d (phaseC ctx m) = true ↔
      (st.isFixed = false ∧ finalizeType ctx st ≠ st.originalType)) := by
  rw [phaseC_eq_filterMap ctx m hnd, acontains_iff_mem_keys]
  constructor
  · intro h
    obtain ⟨q, hqmem, hq1⟩ := List.mem_map.mp h
    obtain ⟨p, hpmem, hpq⟩ := List.mem_filterMap.mp hqmem
    have hkey : p.1 = d := by rw [← hq1, phaseCEmit_key ctx p q hpq]
    have hst : p.2 = st := by
      have hml : alookup d m = some p.2 := by
        have : (d, p.2) ∈ m := by
          rw [← hkey]
          exact hpmem
        exact mem_alookup_of_nodup hnd this
      exact Option.some.inj (hml.symm.trans hlk)
    unfold phaseCEmit at hpq
    split at hpq
    · cases hpq
    · rename_i hfx
      split at hpq
      · rename_i hne
        rw [hst] at hfx hne
        refine ⟨?_, hne⟩
        cases hxx : st.isFixed
        · rfl
        · exact absurd hxx hfx
      · cases hpq
  · intro ⟨hf, hne⟩
    have hmem : (d, st) ∈ m := alookup_mem hlk
    have hemit : phaseCEmit ctx (d, st) =
        some (d, { st with constraintType := finalizeType ctx st }) := by
      unfold phaseCEmit
      rw [if_neg (by simp [hf]), if_pos hne]
    refine List.mem_map.mpr
      ⟨(d, { st with constraintType := finalizeType ctx st }), ?_, rfl⟩
    exact List.mem_filterMap.mpr ⟨(d, st), hmem, hemit⟩

/-- Claim C6: for a node map with distinct keys, `Solve` emits an update
for a node iff the node's state entering finalization is not fixed and
its finalized type differs from its original type; and since phases A
and B never change a node's `isFixed` flag or original type, a node
registered as fixed never appears in the update map. -/
theorem solve_update_emission :
    (∀ (ctx : CtxModel) (ns : NodesMap) (adj : Nat → List Nat)
        (scs : List SymbolicConstraint) (d : Nat) (st : NodeState),
      NodupKeys ns →
      alookup d (solveFinalStates ctx ns adj scs) = some st →
      (acontains d (Solve ctx ns adj scs) = true ↔
        (st.isFixed = false ∧ finalizeType ctx st ≠ st.originalType))) ∧
    (∀ (ctx : CtxModel) (ns : NodesMap) (adj : Nat → List Nat)
        (scs : List SymbolicConstraint) (d : Nat) (st : NodeState),
      NodupKeys ns →
      alookup d ns = some st → st.isFixed = true →
      acontains d (Solve ctx ns adj scs) = false) := by
  constructor
  · intro ctx ns adj scs d st hnd hlk
    exact phaseC_contains_iff ctx _ (nodupKeys_solveFinalStates ctx ns adj
      scs hnd) d st hlk
  · intro ctx ns adj scs d st hnd hlk hfx
    obtain ⟨st2, hlk2, hf2, _⟩ := kfo_solveFinalStates ctx ns adj scs d st hlk
    have hiff := phaseC_contains_iff ctx _
      (nodupKeys_solveFinalStates ctx ns adj scs hnd) d st2 hlk2
    cases hc : acontains d (Solve ctx ns adj scs)
    · rfl
    · have := (hiff.mp hc).1
      rw [hf2, hfx] at this
      cases this

/-- Witness for C6: in the scenario with one fixed node at `int` under a
`size_t` constraint, no update is emitted; and in the C1 scenario node 1
is live but its finalized type equals its original `int`, so the iff
reports no update. -/
theorem solve_update_emission_witness :
    acontains 0 (Solve lp64Ctx
      [(0, { mkNodeState (some intQ) true false with
              constraintType := some sizeQ })]
      (fun _ => []) []) = false ∧
    acontains 1 (Solve lp64Ctx c1Nodes (fun _ => []) c1Cons) = false := by
  constructor
  · exact solve_update_emission.2 lp64Ctx
      [(0, { mkNodeState (some intQ) true false with
              constraintType := some sizeQ })]
      (fun _ => []) [] 0 _ (by unfold NodupKeys; decide) rfl (by decide)
  · have h := solve_update_emission.1 lp64Ctx c1Nodes (fun _ => []) c1Cons 1
      (mkNodeState (some intQ) false false) (by unfold NodupKeys; decide)
      (by decide)
    cases hc : acontains 1 (Solve lp64Ctx c1Nodes (fun _ => []) c1Cons)
    · rfl
    · have := (h.mp hc).2
      exact absurd (by decide) this
